import Mathlib

/-
Verification of the incremental corpus reconciliation engine
(scripts/repair_bible_database.py) against its design document, with the
store schema taken from scripts/build_bible_database.py.

The embedding is shallow: the repair pass is a pure function over an explicit
store state (a list of verse rows), the network is an oracle returning
`Option` payloads (`none` models any exception caught by `download_chapter`),
and store faults (locked / operational errors per insert or commit attempt)
are an oracle consulted by the retry loops, mirroring the `try/except`
structure of the Python source line by line.
-/

namespace DivineLink

/-- A row of the `verses` table: (translation_id, book_id, chapter, verse,
text).  Mirrors the INSERT at repair_bible_database.py lines 185-188 and the
column list of the schema in build_bible_database.py lines 239-250. -/
structure Row where
  translation_id : String
  book_id : Nat
  chapter : Nat
  verse : Nat
  text : String
deriving DecidableEq, Repr

/-- One element of a fetched bulk chapter payload, carrying the three JSON
fields the repair loop reads: v.get('verse'), v.get('number'), v.get('text')
(repair_bible_database.py lines 176-177).  A field absent from the JSON
object is `none`. -/
structure Entry where
  verse : Option Nat
  number : Option Nat
  text : Option String
deriving DecidableEq, Repr

/-- Mirrors `verse_num = v.get('verse', v.get('number', 0))` (line 176). -/
def entryVerseNum (e : Entry) : Nat := e.verse.getD (e.number.getD 0)

/-- Mirrors `text = v.get('text', '')` (line 177). -/
def entryText (e : Entry) : String := e.text.getD ""

/-- Translation mappings (repair_bible_database.py lines 23-27). -/
def TRANSLATIONS : List (String × String) :=
  [("KJV", "en-kjv"), ("ASV", "en-asv"), ("WEB", "en-web")]

/-- Book name mappings, our DB name to API name (lines 30-55). -/
def BOOK_NAMES : List (String × String) :=
  [("Genesis", "genesis"), ("Exodus", "exodus"), ("Leviticus", "leviticus"),
   ("Numbers", "numbers"), ("Deuteronomy", "deuteronomy"), ("Joshua", "joshua"),
   ("Judges", "judges"), ("Ruth", "ruth"), ("1 Samuel", "1-samuel"),
   ("2 Samuel", "2-samuel"), ("1 Kings", "1-kings"), ("2 Kings", "2-kings"),
   ("1 Chronicles", "1-chronicles"), ("2 Chronicles", "2-chronicles"),
   ("Ezra", "ezra"), ("Nehemiah", "nehemiah"), ("Esther", "esther"),
   ("Job", "job"), ("Psalms", "psalms"), ("Proverbs", "proverbs"),
   ("Ecclesiastes", "ecclesiastes"), ("Song of Solomon", "song-of-solomon"),
   ("Isaiah", "isaiah"), ("Jeremiah", "jeremiah"), ("Lamentations", "lamentations"),
   ("Ezekiel", "ezekiel"), ("Daniel", "daniel"), ("Hosea", "hosea"),
   ("Joel", "joel"), ("Amos", "amos"), ("Obadiah", "obadiah"),
   ("Jonah", "jonah"), ("Micah", "micah"), ("Nahum", "nahum"),
   ("Habakkuk", "habakkuk"), ("Zephaniah", "zephaniah"), ("Haggai", "haggai"),
   ("Zechariah", "zechariah"), ("Malachi", "malachi"),
   ("Matthew", "matthew"), ("Mark", "mark"), ("Luke", "luke"), ("John", "john"),
   ("Acts", "acts"), ("Romans", "romans"), ("1 Corinthians", "1-corinthians"),
   ("2 Corinthians", "2-corinthians"), ("Galatians", "galatians"),
   ("Ephesians", "ephesians"), ("Philippians", "philippians"),
   ("Colossians", "colossians"), ("1 Thessalonians", "1-thessalonians"),
   ("2 Thessalonians", "2-thessalonians"), ("1 Timothy", "1-timothy"),
   ("2 Timothy", "2-timothy"), ("Titus", "titus"), ("Philemon", "philemon"),
   ("Hebrews", "hebrews"), ("James", "james"), ("1 Peter", "1-peter"),
   ("2 Peter", "2-peter"), ("1 John", "1-john"), ("2 John", "2-john"),
   ("3 John", "3-john"), ("Jude", "jude"), ("Revelation", "revelation")]

/-- Expected verse counts per book, the canonical reference (lines 58-76). -/
def VERSE_COUNTS : List (String × Nat) :=
  [("Genesis", 1533), ("Exodus", 1213), ("Leviticus", 859), ("Numbers", 1288),
   ("Deuteronomy", 959), ("Joshua", 658), ("Judges", 618), ("Ruth", 85),
   ("1 Samuel", 810), ("2 Samuel", 695), ("1 Kings", 816), ("2 Kings", 719),
   ("1 Chronicles", 942), ("2 Chronicles", 822), ("Ezra", 280), ("Nehemiah", 406),
   ("Esther", 167), ("Job", 1070), ("Psalms", 2461), ("Proverbs", 915),
   ("Ecclesiastes", 222), ("Song of Solomon", 117), ("Isaiah", 1292),
   ("Jeremiah", 1364), ("Lamentations", 154), ("Ezekiel", 1273), ("Daniel", 357),
   ("Hosea", 197), ("Joel", 73), ("Amos", 146), ("Obadiah", 21), ("Jonah", 48),
   ("Micah", 105), ("Nahum", 47), ("Habakkuk", 56), ("Zephaniah", 53),
   ("Haggai", 38), ("Zechariah", 211), ("Malachi", 55),
   ("Matthew", 1071), ("Mark", 678), ("Luke", 1151), ("John", 879),
   ("Acts", 1007), ("Romans", 433), ("1 Corinthians", 437), ("2 Corinthians", 257),
   ("Galatians", 149), ("Ephesians", 155), ("Philippians", 104), ("Colossians", 95),
   ("1 Thessalonians", 89), ("2 Thessalonians", 47), ("1 Timothy", 113),
   ("2 Timothy", 83), ("Titus", 46), ("Philemon", 25), ("Hebrews", 303),
   ("James", 108), ("1 Peter", 105), ("2 Peter", 61), ("1 John", 105),
   ("2 John", 13), ("3 John", 14), ("Jude", 25), ("Revelation", 404)]

/-- Chapters per book (lines 79-97). -/
def CHAPTERS : List (String × Nat) :=
  [("Genesis", 50), ("Exodus", 40), ("Leviticus", 27), ("Numbers", 36),
   ("Deuteronomy", 34), ("Joshua", 24), ("Judges", 21), ("Ruth", 4),
   ("1 Samuel", 31), ("2 Samuel", 24), ("1 Kings", 22), ("2 Kings", 25),
   ("1 Chronicles", 29), ("2 Chronicles", 36), ("Ezra", 10), ("Nehemiah", 13),
   ("Esther", 10), ("Job", 42), ("Psalms", 150), ("Proverbs", 31),
   ("Ecclesiastes", 12), ("Song of Solomon", 8), ("Isaiah", 66),
   ("Jeremiah", 52), ("Lamentations", 5), ("Ezekiel", 48), ("Daniel", 12),
   ("Hosea", 14), ("Joel", 3), ("Amos", 9), ("Obadiah", 1), ("Jonah", 4),
   ("Micah", 7), ("Nahum", 3), ("Habakkuk", 3), ("Zephaniah", 3),
   ("Haggai", 2), ("Zechariah", 14), ("Malachi", 4),
   ("Matthew", 28), ("Mark", 16), ("Luke", 24), ("John", 21),
   ("Acts", 28), ("Romans", 16), ("1 Corinthians", 16), ("2 Corinthians", 13),
   ("Galatians", 6), ("Ephesians", 6), ("Philippians", 4), ("Colossians", 4),
   ("1 Thessalonians", 5), ("2 Thessalonians", 3), ("1 Timothy", 6),
   ("2 Timothy", 4), ("Titus", 3), ("Philemon", 1), ("Hebrews", 13),
   ("James", 5), ("1 Peter", 5), ("2 Peter", 3), ("1 John", 5),
   ("2 John", 1), ("3 John", 1), ("Jude", 1), ("Revelation", 22)]

/-- Set of (chapter, verse) tuples that exist in the store for a translation
and book (repair_bible_database.py lines 100-107); the Python function
returns a set, so the model returns a `Finset`. -/
def get_existing_verses (verses : List Row) (translation_id : String) (book_id : Nat) :
    Finset (Nat × Nat) :=
  ((verses.filter fun r => r.translation_id == translation_id && r.book_id == book_id).map
    fun r => (r.chapter, r.verse)).toFinset

/-- Set of full unit keys present in the store. -/
def verseKeys (verses : List Row) : Finset (String × Nat × Nat × Nat) :=
  (verses.map fun r => (r.translation_id, r.book_id, r.chapter, r.verse)).toFinset

/-- Outcome the store reports for one INSERT attempt: success, a uniqueness
violation (sqlite3.IntegrityError), a transient lock (sqlite3.OperationalError
whose message contains "locked"), or any other operational error. -/
inductive InsertOutcome
  | ok
  | integrity
  | locked
  | otherOp
deriving DecidableEq, Repr

/-- How one run of the writer's retry loop ended. -/
inductive WriteOutcome
  | added
  | notAdded
  | fatalLocked
  | fatalOther
deriving DecidableEq, Repr

/-- Result of the writer's retry loop: the store afterwards, how it ended,
the sleep durations (seconds) taken between attempts, and how many insert
attempts were made. -/
structure WriteRes where
  verses : List Row
  outcome : WriteOutcome
  sleeps : List Nat
  attempts : Nat
deriving DecidableEq, Repr

/-- The insert retry loop `for attempt in range(3)` of repair_bible_database.py
lines 183-198, over the list of remaining attempt indices.  On success the row
is appended and the loop breaks with `added`; IntegrityError breaks with no
row appended ("Already exists"); an OperationalError containing "locked" with
`attempt < 2` sleeps 1 second and retries, otherwise the error is re-raised
(fatal).  An empty attempt list corresponds to the loop falling through, after
which execution would simply continue with nothing added. -/
def insertAttempts (outs : Nat → InsertOutcome) (verses : List Row) (r : Row) :
    List Nat → WriteRes
  | [] => ⟨verses, .notAdded, [], 0⟩
  | a :: rest =>
      match outs a with
      | .ok => ⟨verses ++ [r], .added, [], 1⟩
      | .integrity => ⟨verses, .notAdded, [], 1⟩
      | .otherOp => ⟨verses, .fatalOther, [], 1⟩
      | .locked =>
          if a < 2 then
            let w := insertAttempts outs verses r rest
            ⟨w.verses, w.outcome, 1 :: w.sleeps, w.attempts + 1⟩
          else ⟨verses, .fatalLocked, [], 1⟩

/-- The full writer path for one row: three attempts, indices 0, 1, 2. -/
def writeVerse (outs : Nat → InsertOutcome) (verses : List Row) (r : Row) : WriteRes :=
  insertAttempts outs verses r [0, 1, 2]

/-- Outcome the store reports for one commit attempt. -/
inductive CommitOutcome
  | ok
  | locked
  | otherOp
deriving DecidableEq, Repr

/-- How the commit retry loop ended. -/
inductive CommitResult
  | committed
  | fatalLocked
  | fatalOther
deriving DecidableEq, Repr

/-- Result of the commit retry loop: how it ended, the sleep durations taken
between attempts, and the number of commit attempts made. -/
structure CommitRes where
  result : CommitResult
  sleeps : List Nat
  attempts : Nat
deriving DecidableEq, Repr

/-- The commit retry loop `for attempt in range(5)` of
repair_bible_database.py lines 204-213: success breaks; an OperationalError
containing "locked" with `attempt < 4` sleeps 2 seconds and retries, otherwise
the error is re-raised (fatal).  An empty attempt list corresponds to the loop
falling through, after which execution would continue on the success path. -/
def commitAttempts (outs : Nat → CommitOutcome) : List Nat → CommitRes
  | [] => ⟨.committed, [], 0⟩
  | a :: rest =>
      match outs a with
      | .ok => ⟨.committed, [], 1⟩
      | .otherOp => ⟨.fatalOther, [], 1⟩
      | .locked =>
          if a < 4 then
            let c := commitAttempts outs rest
            ⟨c.result, 2 :: c.sleeps, c.attempts + 1⟩
          else ⟨.fatalLocked, [], 1⟩

/-- The full commit path for one document: five attempts, indices 0..4. -/
def commitWithRetry (outs : Nat → CommitOutcome) : CommitRes :=
  commitAttempts outs [0, 1, 2, 3, 4]

/-- Store fault model: the outcome of each insert attempt (per row and
attempt index) and of each commit attempt (per book id and attempt index). -/
structure Env where
  insertOut : Row → Nat → InsertOutcome
  commitOut : Nat → Nat → CommitOutcome

/-- A store that never reports contention: every insert succeeds and every
commit succeeds. -/
def benignEnv : Env := ⟨fun _ _ => .ok, fun _ _ => .ok⟩

/-- Fetch oracle standing for `download_chapter` (lines 110-121): given the
translation code, the API book name and a chapter number it returns the
decoded list of payload entries, or `none` when the request failed for any
reason (network error, timeout, undecodable payload) — the Python function
catches every exception and returns None. -/
def Fetch : Type := String → String → Nat → Option (List Entry)

/-- Fatal errors a repair run can raise: an insert or commit retry loop
exhausted on lock contention, or a non-lock operational error. -/
inductive RepairError
  | insertLocked
  | insertOther
  | commitLocked
  | commitOther
deriving DecidableEq, Repr

/-- Per-book statistics recorded when the repair path of a book completes
(the data of repair_bible_database.py line 218). -/
structure BookStat where
  book_id : Nat
  expected : Nat
  existing : Nat
  added : Nat
deriving DecidableEq, Repr

/-- Observable actions of a run: bulk chapter fetches (api book name and
chapter), single-verse fetches (`download_verse` calls, never issued by the
repair pass), successful commit checkpoints (book ids), and per-book
statistics for books that completed the repair path. -/
structure Trace where
  fetches : List (String × Nat)
  unitFetches : List (String × Nat × Nat)
  commits : List Nat
  bookStats : List BookStat
deriving DecidableEq, Repr

/-- The empty trace. -/
def Trace.emptyT : Trace := ⟨[], [], [], []⟩

/-- Concatenation of traces, preserving order of events. -/
def Trace.cat (t u : Trace) : Trace :=
  ⟨t.fetches ++ u.fetches, t.unitFetches ++ u.unitFetches,
   t.commits ++ u.commits, t.bookStats ++ u.bookStats⟩

/-- The inner loop over one chapter's payload entries
(repair_bible_database.py lines 175-198): an entry with a zero/missing verse
number or empty/missing text is skipped; a key already in `existing` is
skipped; otherwise the writer retry loop runs, and a fatal writer outcome
aborts the run. -/
def processEntries (env : Env) (tid : String) (bid : Nat) (existing : Finset (Nat × Nat))
    (chapter : Nat) (verses : List Row) (added : Nat) :
    List Entry → Except RepairError (List Row × Nat)
  | [] => .ok (verses, added)
  | e :: es =>
      let vn := entryVerseNum e
      let tx := entryText e
      if vn == 0 || tx == "" then
        processEntries env tid bid existing chapter verses added es
      else if (chapter, vn) ∈ existing then
        processEntries env tid bid existing chapter verses added es
      else
        let r : Row := ⟨tid, bid, chapter, vn, tx⟩
        let w := writeVerse (env.insertOut r) verses r
        match w.outcome with
        | .added => processEntries env tid bid existing chapter w.verses (added + 1) es
        | .notAdded => processEntries env tid bid existing chapter w.verses added es
        | .fatalLocked => .error .insertLocked
        | .fatalOther => .error .insertOther

/-- The chapter loop (lines 171-201): each chapter is fetched in order; a
`none` payload (failed bulk request) contributes nothing; otherwise the
entries are processed.  Returns the store, the added count and the list of
bulk fetch calls issued, in order. -/
def processChapters (env : Env) (fetchChapter : Nat → Option (List Entry)) (tid : String)
    (bid : Nat) (bookApi : String) (existing : Finset (Nat × Nat)) (verses : List Row)
    (added : Nat) : List Nat → Except RepairError (List Row × Nat × List (String × Nat))
  | [] => .ok (verses, added, [])
  | ch :: chs =>
      let step : Except RepairError (List Row × Nat) :=
        match fetchChapter ch with
        | none => .ok (verses, added)
        | some entries => processEntries env tid bid existing ch verses added entries
      match step with
      | .error err => .error err
      | .ok (vs2, ad2) =>
          match processChapters env fetchChapter tid bid bookApi existing vs2 ad2 chs with
          | .error err => .error err
          | .ok (vs3, ad3, fs) => .ok (vs3, ad3, (bookApi, ch) :: fs)

/-- Result of processing one book: the store afterwards, the `book_added`
count, the contribution to `total_missing`, and the trace. -/
structure BookRes where
  verses : List Row
  added : Nat
  missingInc : Int
  trace : Trace
deriving DecidableEq, Repr

/-- Processing of one book inside the book loop (lines 153-218).  A book with
no API name mapping is skipped.  Otherwise the existing keys are scanned and
the completeness check `len(existing) >= expected_total * 0.95` runs; for
every expected count in VERSE_COUNTS (all at most 2461) the Python float
comparison agrees exactly with the rational comparison
`20 * len(existing) >= 19 * expected`, which is how it is stated here.  A
complete book is skipped; otherwise chapters 1..num_chapters are fetched and
written, the per-book commit retry loop runs, and
`max(0, expected_total - len(existing) - book_added)` is accumulated. -/
def processBook (env : Env) (fetch : Fetch) (code : String) (tid : String)
    (verses : List Row) (bk : Nat × String) : Except RepairError BookRes :=
  match List.lookup bk.2 BOOK_NAMES with
  | none => .ok ⟨verses, 0, 0, Trace.emptyT⟩
  | some bookApi =>
      let existing := get_existing_verses verses tid bk.1
      let expected := (List.lookup bk.2 VERSE_COUNTS).getD 0
      let nch := (List.lookup bk.2 CHAPTERS).getD 0
      if 19 * expected ≤ 20 * existing.card then
        .ok ⟨verses, 0, 0, Trace.emptyT⟩
      else
        match processChapters env (fetch code bookApi) tid bk.1 bookApi existing verses 0
            (List.range' 1 nch) with
        | .error e => .error e
        | .ok (vs2, bookAdded, fs) =>
            let c := commitWithRetry (env.commitOut bk.1)
            match c.result with
            | .fatalLocked => .error .commitLocked
            | .fatalOther => .error .commitOther
            | .committed =>
                .ok ⟨vs2, bookAdded, max 0 ((expected : Int) - existing.card - bookAdded),
                     ⟨fs, [], [bk.1], [⟨bk.1, expected, existing.card, bookAdded⟩]⟩⟩

/-- Aggregate result of a repair run for one translation: the store
afterwards, `total_added`, `total_missing` and the trace. -/
structure RunResult where
  verses : List Row
  total_added : Nat
  total_missing : Int
  trace : Trace
deriving DecidableEq, Repr

/-- The book loop of `repair_translation` (lines 153-218), folding
`processBook` over the rows of the books table in order. -/
def repairBooks (env : Env) (fetch : Fetch) (code : String) (tid : String)
    (verses : List Row) : List (Nat × String) → Except RepairError RunResult
  | [] => .ok ⟨verses, 0, 0, Trace.emptyT⟩
  | bk :: bks =>
      match processBook env fetch code tid verses bk with
      | .error e => .error e
      | .ok br =>
          match repairBooks env fetch code tid br.verses bks with
          | .error e => .error e
          | .ok rest =>
              .ok ⟨rest.verses, br.added + rest.total_added,
                   br.missingInc + rest.total_missing, br.trace.cat rest.trace⟩

/-- The store state the engine touches: the rows of the books table (id and
name, as read by `SELECT id, name FROM books ORDER BY id`) and the rows of
the verses table. -/
structure DB where
  books : List (Nat × String)
  verses : List Row
deriving DecidableEq, Repr

/-- The repair pass for one translation (repair_bible_database.py lines
137-220): an unknown translation id returns immediately; otherwise every book
is processed in order.  A fatal store error propagates as the run's error. -/
def repair_translation (env : Env) (fetch : Fetch) (db : DB) (tid : String) :
    Except RepairError RunResult :=
  match List.lookup tid TRANSLATIONS with
  | none => .ok ⟨db.verses, 0, 0, Trace.emptyT⟩
  | some code => repairBooks env fetch code tid db.verses db.books

/-- Uniqueness flag of the index covering the verse key columns:
`create_database` (build_bible_database.py line 253) creates
`idx_verses_lookup` on (translation_id, book_id, chapter, verse) with CREATE
INDEX, not CREATE UNIQUE INDEX, and the verses table itself (lines 239-250)
declares no UNIQUE constraint on those columns; build_bible_simple.py line
130 is identical.  So the flag is false. -/
def idx_verses_lookup_unique : Bool := false

/-- Rows agree on the full unit key (translation_id, book_id, chapter,
verse). -/
def sameKey (a b : Row) : Bool :=
  a.translation_id == b.translation_id && a.book_id == b.book_id &&
    a.chapter == b.chapter && a.verse == b.verse

/-- Store-level outcome of one INSERT into the verses table under the schema
as actually created: sqlite raises IntegrityError for the key exactly when a
unique index on the key columns would be violated; with no unique index the
insert of a well-typed row always succeeds. -/
def storeInsertOutcome (store : List Row) (r : Row) : InsertOutcome :=
  if idx_verses_lookup_unique && store.any (fun x => sameKey r x) then .integrity else .ok

/-- The guarded write path of repair_translation (lines 182-198) executed by
a second writer against the real store semantics: `existing` is the
point-in-time scan this writer took before the other writer inserted.
Returns the store afterwards and whether the unit was counted as added. -/
def writeAgainstStore (store : List Row) (existing : Finset (Nat × Nat)) (r : Row) :
    List Row × Bool :=
  if (r.chapter, r.verse) ∈ existing then (store, false)
  else
    let w := writeVerse (fun _ => storeInsertOutcome store r) store r
    (w.verses, w.outcome == WriteOutcome.added)

/-- Number of rows in the store carrying the same full unit key as `r`. -/
def countKey (store : List Row) (r : Row) : Nat :=
  (store.filter fun x => sameKey r x).length

/-- An entry the writer accepts: nonzero verse number and non-empty text
(the negation of `if not verse_num or not text: continue`, line 179). -/
def validEntry (e : Entry) : Prop := entryVerseNum e ≠ 0 ∧ entryText e ≠ ""

/-- A book is settled in a given store state: either it has no API name, or
it is at/above the completeness threshold, or every valid entry of every
chapter payload the fetch oracle returns for it already has its key in the
store.  After one benign repair pass every book is settled, which is what
makes a second pass add nothing. -/
def bookDone (fetch : Fetch) (code tid : String) (vs : List Row) (bk : Nat × String) : Prop :=
  match List.lookup bk.2 BOOK_NAMES with
  | none => True
  | some api =>
      19 * ((List.lookup bk.2 VERSE_COUNTS).getD 0) ≤
        20 * (get_existing_verses vs tid bk.1).card ∨
      ∀ c ∈ List.range' 1 ((List.lookup bk.2 CHAPTERS).getD 0), ∀ entries,
        fetch code api c = some entries → ∀ e ∈ entries, validEntry e →
          (c, entryVerseNum e) ∈ get_existing_verses vs tid bk.1

theorem writeVerse_verses (outs : Nat → InsertOutcome) (vs : List Row) (r : Row) :
    (writeVerse outs vs r).verses = vs ∨ (writeVerse outs vs r).verses = vs ++ [r] := by
  cases h0 : outs 0 <;> cases h1 : outs 1 <;> cases h2 : outs 2 <;>
    simp [writeVerse, insertAttempts, h0, h1, h2]

theorem writeVerse_added_verses (outs : Nat → InsertOutcome) (vs : List Row) (r : Row)
    (h : (writeVerse outs vs r).outcome = .added) :
    (writeVerse outs vs r).verses = vs ++ [r] := by
  cases h0 : outs 0 <;> cases h1 : outs 1 <;> cases h2 : outs 2 <;>
    simp [writeVerse, insertAttempts, h0, h1, h2] at h ⊢

theorem writeVerse_notAdded_verses (outs : Nat → InsertOutcome) (vs : List Row) (r : Row)
    (h : (writeVerse outs vs r).outcome = .notAdded) :
    (writeVerse outs vs r).verses = vs := by
  cases h0 : outs 0 <;> cases h1 : outs 1 <;> cases h2 : outs 2 <;>
    simp [writeVerse, insertAttempts, h0, h1, h2] at h ⊢

theorem writeVerse_benign (vs : List Row) (r : Row) :
    writeVerse (fun _ => InsertOutcome.ok) vs r = ⟨vs ++ [r], .added, [], 1⟩ := rfl

/-- C7: for every unit insert that hits a store lock/contention error, the
insert is retried up to 3 attempts with a fixed 1-second delay between
attempts; exhausting the 3 attempts on lock errors, or hitting any
operational error that is not a lock error, propagates as a fatal error, and
the surrounding entry loop turns that fatal writer outcome into the run's
error. -/
theorem insert_lock_retry_policy (outs : Nat → InsertOutcome) (vs : List Row) (r : Row) :
    (writeVerse outs vs r).attempts ≤ 3 ∧
    (∀ d ∈ (writeVerse outs vs r).sleeps, d = 1) ∧
    ((∀ k, outs k = .locked) → writeVerse outs vs r = ⟨vs, .fatalLocked, [1, 1], 3⟩) ∧
    (outs 0 = .otherOp → writeVerse outs vs r = ⟨vs, .fatalOther, [], 1⟩) ∧
    (outs 0 = .locked → outs 1 = .otherOp → writeVerse outs vs r = ⟨vs, .fatalOther, [1], 2⟩) ∧
    (outs 0 = .locked → outs 1 = .locked → outs 2 = .otherOp →
      writeVerse outs vs r = ⟨vs, .fatalOther, [1, 1], 3⟩) ∧
    (∀ (env : Env) (tid : String) (bid : Nat) (existing : Finset (Nat × Nat))
        (chapter : Nat) (vs0 : List Row) (added : Nat) (e : Entry) (es : List Entry),
      entryVerseNum e ≠ 0 → entryText e ≠ "" → (chapter, entryVerseNum e) ∉ existing →
      (writeVerse (env.insertOut ⟨tid, bid, chapter, entryVerseNum e, entryText e⟩) vs0
        ⟨tid, bid, chapter, entryVerseNum e, entryText e⟩).outcome = .fatalLocked →
      processEntries env tid bid existing chapter vs0 added (e :: es) = .error .insertLocked) := by
  refine ⟨?_, ?_, ?_, ?_, ?_, ?_, ?_⟩
  · cases h0 : outs 0 <;> cases h1 : outs 1 <;> cases h2 : outs 2 <;>
      simp [writeVerse, insertAttempts, h0, h1, h2]
  · cases h0 : outs 0 <;> cases h1 : outs 1 <;> cases h2 : outs 2 <;>
      simp [writeVerse, insertAttempts, h0, h1, h2]
  · intro h
    simp [writeVerse, insertAttempts, h 0, h 1, h 2]
  · intro h0
    simp [writeVerse, insertAttempts, h0]
  · intro h0 h1
    simp [writeVerse, insertAttempts, h0, h1]
  · intro h0 h1 h2
    simp [writeVerse, insertAttempts, h0, h1, h2]
  · intro env tid bid existing chapter vs0 added e es hv ht hmem hfatal
    simp only [processEntries, beq_iff_eq]
    rw [if_neg, if_neg hmem]
    · rw [hfatal]
    · simp [hv, ht]

/-- Checks the retry policy theorem at a concrete input: a store that reports
a lock on every attempt makes the writer sleep 1 second twice, stop after 3
attempts, and end fatally. -/
theorem insert_lock_retry_policy_check :
    writeVerse (fun _ => InsertOutcome.locked) [] ⟨"KJV", 1, 1, 1, "t"⟩ =
      ⟨[], .fatalLocked, [1, 1], 3⟩ ∧
    (writeVerse (fun _ => InsertOutcome.locked) [] ⟨"KJV", 1, 1, 1, "t"⟩).attempts ≤ 3 :=
  ⟨(insert_lock_retry_policy (fun _ => InsertOutcome.locked) [] ⟨"KJV", 1, 1, 1, "t"⟩).2.2.1
      (fun _ => rfl),
   (insert_lock_retry_policy (fun _ => InsertOutcome.locked) [] ⟨"KJV", 1, 1, 1, "t"⟩).1⟩

/-- C2: a second writer that scanned before a concurrent insert of the same
key and then runs the guarded write path of repair_translation against the
store the schema actually creates is NOT stopped: the verses table has no
unique index on (translation_id, book_id, chapter, verse), so the store
reports success, the insert is counted as added, and two rows with the same
key end up stored. -/
theorem duplicate_key_insert_not_rejected :
    writeAgainstStore [⟨"KJV", 1, 1, 1, "In the beginning"⟩] ∅ ⟨"KJV", 1, 1, 1, "In the beginning"⟩ =
      ([⟨"KJV", 1, 1, 1, "In the beginning"⟩, ⟨"KJV", 1, 1, 1, "In the beginning"⟩], true) ∧
    countKey [⟨"KJV", 1, 1, 1, "In the beginning"⟩, ⟨"KJV", 1, 1, 1, "In the beginning"⟩]
      ⟨"KJV", 1, 1, 1, "In the beginning"⟩ = 2 ∧
    storeInsertOutcome [⟨"KJV", 1, 1, 1, "In the beginning"⟩] ⟨"KJV", 1, 1, 1, "In the beginning"⟩ =
      .ok := by
  refine ⟨rfl, rfl, rfl⟩

/-- C8 as stated is false at a concrete input: with a store that reports a
lock on every commit attempt, the commit loop makes its 5 attempts and
escalates, but the delays between attempts are the constant sequence
2, 2, 2, 2 — not increasing. -/
theorem commit_retry_delay_not_increasing :
    commitWithRetry (fun _ => CommitOutcome.locked) = ⟨.fatalLocked, [2, 2, 2, 2], 5⟩ ∧
    ¬ List.Chain' (fun a b => a < b)
      (commitWithRetry (fun _ => CommitOutcome.locked)).sleeps := by
  refine ⟨rfl, ?_⟩
  intro h
  have h2 : List.Chain' (fun a b => a < b) [2, 2, 2, 2] := h
  rw [List.chain'_cons] at h2
  exact absurd h2.1 (by omega)

/-- C8 amended: for every repaired document one commit checkpoint runs after
its subdivisions; on transient contention the commit is retried up to 5
attempts with a FIXED 2-second delay between attempts, and exhausting the 5
attempts escalates to a fatal error for the run. -/
theorem commit_retry_fixed_delay_policy :
    (∀ outs : Nat → CommitOutcome,
      (commitWithRetry outs).attempts ≤ 5 ∧
      (∀ d ∈ (commitWithRetry outs).sleeps, d = 2) ∧
      ((∀ k, outs k = .locked) → commitWithRetry outs = ⟨.fatalLocked, [2, 2, 2, 2], 5⟩)) ∧
    (∀ (env : Env) (fetch : Fetch) (code tid : String) (vs : List Row) (bk : Nat × String)
        (br : BookRes), processBook env fetch code tid vs bk = .ok br →
      br.trace.commits = [] ∨ br.trace.commits = [bk.1]) ∧
    (∀ (env : Env) (fetch : Fetch) (code tid : String) (vs : List Row) (bid : Nat)
        (name api : String) (vs2 : List Row) (ad : Nat) (fs : List (String × Nat)),
      List.lookup name BOOK_NAMES = some api →
      ¬ 19 * ((List.lookup name VERSE_COUNTS).getD 0) ≤
        20 * (get_existing_verses vs tid bid).card →
      processChapters env (fetch code api) tid bid api (get_existing_verses vs tid bid) vs 0
        (List.range' 1 ((List.lookup name CHAPTERS).getD 0)) = .ok (vs2, ad, fs) →
      (∀ k, env.commitOut bid k = .locked) →
      processBook env fetch code tid vs (bid, name) = .error .commitLocked) := by
  refine ⟨?_, ?_, ?_⟩
  · intro outs
    refine ⟨?_, ?_, ?_⟩
    · cases h0 : outs 0 <;> cases h1 : outs 1 <;> cases h2 : outs 2 <;> cases h3 : outs 3 <;>
        cases h4 : outs 4 <;> simp [commitWithRetry, commitAttempts, h0, h1, h2, h3, h4]
    · cases h0 : outs 0 <;> cases h1 : outs 1 <;> cases h2 : outs 2 <;> cases h3 : outs 3 <;>
        cases h4 : outs 4 <;> simp [commitWithRetry, commitAttempts, h0, h1, h2, h3, h4]
    · intro h
      simp [commitWithRetry, commitAttempts, h 0, h 1, h 2, h 3, h 4]
  · intro env fetch code tid vs bk br h
    unfold processBook at h
    rcases hl : List.lookup bk.2 BOOK_NAMES with _ | api
    · rw [hl] at h
      simp only [Except.ok.injEq] at h
      left; rw [← h]; rfl
    · rw [hl] at h
      simp only at h
      split at h
      · simp only [Except.ok.injEq] at h
        left; rw [← h]; rfl
      · rcases hc : processChapters env (fetch code api) tid bk.1 api
            (get_existing_verses vs tid bk.1) vs 0
            (List.range' 1 ((List.lookup bk.2 CHAPTERS).getD 0)) with _ | ⟨vs2, ad, fs⟩
        · rw [hc] at h; exact absurd h (by simp)
        · rw [hc] at h
          simp only at h
          split at h
          · exact absurd h (by simp)
          · exact absurd h (by simp)
          · simp only [Except.ok.injEq] at h
            right; rw [← h]
  · intro env fetch code tid vs bid name api vs2 ad fs hl hth hc hlock
    unfold processBook
    simp only [hl, hth, if_false, hc]
    have : commitWithRetry (env.commitOut bid) = ⟨.fatalLocked, [2, 2, 2, 2], 5⟩ := by
      simp [commitWithRetry, commitAttempts, hlock 0, hlock 1, hlock 2, hlock 3, hlock 4]
    rw [this]

/-- Checks the amended commit policy at concrete inputs: an always-locked
store exhausts the 5 attempts with constant 2-second delays, and a concrete
repaired book under an always-locked commit oracle ends the run with the
commit-contention fatal error. -/
theorem commit_retry_fixed_delay_policy_check :
    commitWithRetry (fun _ => CommitOutcome.locked) = ⟨.fatalLocked, [2, 2, 2, 2], 5⟩ ∧
    processBook ⟨fun _ _ => .ok, fun _ _ => .locked⟩ (fun _ _ _ => none) "en-kjv" "KJV" []
      (64, "3 John") = .error .commitLocked := by
  constructor
  · exact (commit_retry_fixed_delay_policy.1 (fun _ => CommitOutcome.locked)).2.2 (fun _ => rfl)
  · exact commit_retry_fixed_delay_policy.2.2 ⟨fun _ _ => .ok, fun _ _ => .locked⟩
      (fun _ _ _ => none) "en-kjv" "KJV" [] 64 "3 John" "3-john" [] 0 [("3-john", 1)]
      rfl (by decide) rfl (fun _ => rfl)

theorem validEntry_guard (e : Entry) :
    (entryVerseNum e == 0 || entryText e == "") = true ↔ ¬ validEntry e := by
  simp only [validEntry, Bool.or_eq_true, beq_iff_eq, not_and_or, not_not]

theorem mem_gev_append (vs ext : List Row) (tid : String) (bid : Nat) (p : Nat × Nat)
    (h : p ∈ get_existing_verses vs tid bid) : p ∈ get_existing_verses (vs ++ ext) tid bid := by
  simp only [get_existing_verses, List.mem_toFinset, List.mem_map, List.mem_filter,
    List.mem_append] at h ⊢
  obtain ⟨r, ⟨hr, hcond⟩, hp⟩ := h
  exact ⟨r, ⟨Or.inl hr, hcond⟩, hp⟩

theorem mem_gev_insert (vs : List Row) (tid : String) (bid ch vn : Nat) (tx : String) :
    (ch, vn) ∈ get_existing_verses (vs ++ [⟨tid, bid, ch, vn, tx⟩]) tid bid := by
  simp only [get_existing_verses, List.mem_toFinset, List.mem_map, List.mem_filter,
    List.mem_append]
  refine ⟨⟨tid, bid, ch, vn, tx⟩, ⟨Or.inr (by simp), by simp⟩, rfl⟩

theorem gev_card_mono (vs ext : List Row) (tid : String) (bid : Nat) :
    (get_existing_verses vs tid bid).card ≤ (get_existing_verses (vs ++ ext) tid bid).card :=
  Finset.card_le_card fun p hp => mem_gev_append vs ext tid bid p hp

theorem writeVerse_benignEnv (q r : Row) (vs : List Row) :
    writeVerse (benignEnv.insertOut q) vs r = ⟨vs ++ [r], .added, [], 1⟩ := rfl

theorem processEntries_ok (env : Env) (tid : String) (bid : Nat) (ex : Finset (Nat × Nat))
    (ch : Nat) :
    ∀ (es : List Entry) (vs : List Row) (add : Nat) (vs' : List Row) (add' : Nat),
      processEntries env tid bid ex ch vs add es = .ok (vs', add') →
      (∃ ext, vs' = vs ++ ext) ∧
      ∀ r ∈ vs', r ∈ vs ∨
        (r.translation_id = tid ∧ r.book_id = bid ∧ r.chapter = ch ∧
         r.verse ≠ 0 ∧ r.text ≠ "") := by
  intro es
  induction es with
  | nil =>
      intro vs add vs' add' h
      simp only [processEntries, Except.ok.injEq, Prod.mk.injEq] at h
      obtain ⟨h1, _⟩ := h
      subst h1
      exact ⟨⟨[], by simp⟩, fun r hr => Or.inl hr⟩
  | cons e es ih =>
      intro vs add vs' add' h
      simp only [processEntries] at h
      by_cases hval : (entryVerseNum e == 0 || entryText e == "") = true
      · rw [if_pos hval] at h
        exact ih vs add vs' add' h
      · rw [if_neg hval] at h
        by_cases hmem : (ch, entryVerseNum e) ∈ ex
        · rw [if_pos hmem] at h
          exact ih vs add vs' add' h
        · rw [if_neg hmem] at h
          have hshape : validEntry e := by
            by_contra hc
            exact hval ((validEntry_guard e).mpr hc)
          split at h
          · rename_i hw
            have hvw := writeVerse_added_verses _ _ _ hw
            obtain ⟨⟨ext, hext⟩, hrows⟩ := ih _ _ vs' add' h
            rw [hvw] at hext hrows
            refine ⟨⟨⟨tid, bid, ch, entryVerseNum e, entryText e⟩ :: ext, by
              rw [hext]; simp⟩, ?_⟩
            intro r hr
            rcases hrows r hr with hin | hnew
            · rcases List.mem_append.mp hin with hin2 | hin2
              · exact Or.inl hin2
              · have : r = ⟨tid, bid, ch, entryVerseNum e, entryText e⟩ := by
                  simpa using hin2
                subst this
                exact Or.inr ⟨rfl, rfl, rfl, hshape.1, hshape.2⟩
            · exact Or.inr hnew
          · rename_i hw
            have hvw := writeVerse_notAdded_verses _ _ _ hw
            rw [hvw] at h
            exact ih vs add vs' add' h
          · simp at h
          · simp at h

theorem processEntries_benign_ok (tid : String) (bid : Nat) (ex : Finset (Nat × Nat))
    (ch : Nat) :
    ∀ (es : List Entry) (vs : List Row) (add : Nat),
      (∀ p ∈ ex, p ∈ get_existing_verses vs tid bid) →
      ∃ vs' add', processEntries benignEnv tid bid ex ch vs add es = .ok (vs', add') ∧
        (∃ ext, vs' = vs ++ ext) ∧
        (∀ p ∈ ex, p ∈ get_existing_verses vs' tid bid) ∧
        ∀ e ∈ es, validEntry e → (ch, entryVerseNum e) ∈ get_existing_verses vs' tid bid := by
  intro es
  induction es with
  | nil =>
      intro vs add hex
      exact ⟨vs, add, rfl, ⟨[], by simp⟩, hex, by simp⟩
  | cons e es ih =>
      intro vs add hex
      by_cases hval : (entryVerseNum e == 0 || entryText e == "") = true
      · obtain ⟨vs', add', hrun, hext, hex', hcov⟩ := ih vs add hex
        refine ⟨vs', add', ?_, hext, hex', ?_⟩
        · simp only [processEntries, if_pos hval]
          exact hrun
        · intro e' he' hv'
          rcases List.mem_cons.mp he' with rfl | he2
          · exact absurd hv' ((validEntry_guard e').mp hval)
          · exact hcov e' he2 hv'
      · by_cases hmem : (ch, entryVerseNum e) ∈ ex
        · obtain ⟨vs', add', hrun, hext, hex', hcov⟩ := ih vs add hex
          refine ⟨vs', add', ?_, hext, hex', ?_⟩
          · simp only [processEntries, if_neg hval, if_pos hmem]
            exact hrun
          · intro e' he' hv'
            rcases List.mem_cons.mp he' with rfl | he2
            · exact hex' _ hmem
            · exact hcov e' he2 hv'
        · have hex2 : ∀ p ∈ ex,
              p ∈ get_existing_verses
                (vs ++ [⟨tid, bid, ch, entryVerseNum e, entryText e⟩]) tid bid :=
            fun p hp => mem_gev_append _ _ _ _ _ (hex p hp)
          obtain ⟨vs', add', hrun, ⟨ext, hext⟩, hex', hcov⟩ := ih _ (add + 1) hex2
          refine ⟨vs', add', ?_, ?_, hex', ?_⟩
          · simp only [processEntries, if_neg hval, if_neg hmem, writeVerse_benignEnv]
            exact hrun
          · exact ⟨⟨tid, bid, ch, entryVerseNum e, entryText e⟩ :: ext, by rw [hext]; simp⟩
          · intro e' he' hv'
            rcases List.mem_cons.mp he' with rfl | he2
            · rw [hext]
              exact mem_gev_append _ _ _ _ _ (mem_gev_insert vs tid bid ch _ _)
            · exact hcov e' he2 hv'

theorem processEntries_benign_skip (tid : String) (bid : Nat) (ex : Finset (Nat × Nat))
    (ch : Nat) :
    ∀ (es : List Entry) (vs : List Row) (add : Nat),
      (∀ e ∈ es, validEntry e → (ch, entryVerseNum e) ∈ ex) →
      processEntries benignEnv tid bid ex ch vs add es = .ok (vs, add) := by
  intro es
  induction es with
  | nil => intro vs add _; rfl
  | cons e es ih =>
      intro vs add hcov
      by_cases hval : (entryVerseNum e == 0 || entryText e == "") = true
      · simp only [processEntries, if_pos hval]
        exact ih vs add fun e' he' => hcov e' (List.mem_cons_of_mem _ he')
      · have hv : validEntry e := by
          by_contra hc
          exact hval ((validEntry_guard e).mpr hc)
        have hmem := hcov e (List.mem_cons_self _ _) hv
        simp only [processEntries, if_neg hval, if_pos hmem]
        exact ih vs add fun e' he' => hcov e' (List.mem_cons_of_mem _ he')

theorem processChapters_ok (env : Env) (f : Nat → Option (List Entry)) (tid : String)
    (bid : Nat) (api : String) (ex : Finset (Nat × Nat)) :
    ∀ (chs : List Nat) (vs : List Row) (add : Nat) (vs' : List Row) (ad' : Nat)
      (fs : List (String × Nat)),
      processChapters env f tid bid api ex vs add chs = .ok (vs', ad', fs) →
      (∃ ext, vs' = vs ++ ext) ∧
      fs = chs.map (fun c => (api, c)) ∧
      ∀ r ∈ vs', r ∈ vs ∨
        (r.translation_id = tid ∧ r.book_id = bid ∧ r.verse ≠ 0 ∧ r.text ≠ "" ∧
         r.chapter ∈ chs ∧ f r.chapter ≠ none) := by
  intro chs
  induction chs with
  | nil =>
      intro vs add vs' ad' fs h
      simp only [processChapters, Except.ok.injEq, Prod.mk.injEq] at h
      obtain ⟨h1, _, h3⟩ := h
      subst h1
      subst h3
      exact ⟨⟨[], by simp⟩, rfl, fun r hr => Or.inl hr⟩
  | cons ch chs ih =>
      intro vs add vs' ad' fs h
      rcases hf : f ch with _ | entries
      · rcases hrec : processChapters env f tid bid api ex vs add chs with err | ⟨vs3, ad3, fs0⟩
        · rw [show processChapters env f tid bid api ex vs add (ch :: chs) =
              Except.error err by simp only [processChapters, hf, hrec]] at h
          exact absurd h (by simp)
        · rw [show processChapters env f tid bid api ex vs add (ch :: chs) =
              Except.ok (vs3, ad3, (api, ch) :: fs0) by simp only [processChapters, hf, hrec]] at h
          simp only [Except.ok.injEq, Prod.mk.injEq] at h
          obtain ⟨h1, _, h3⟩ := h
          subst h1
          subst h3
          obtain ⟨hext, hfs, hrows⟩ := ih vs add vs3 ad3 fs0 hrec
          refine ⟨hext, by rw [hfs, List.map_cons], ?_⟩
          intro r hr
          rcases hrows r hr with hin | ⟨ha, hb, hc, hd, he, hg⟩
          · exact Or.inl hin
          · exact Or.inr ⟨ha, hb, hc, hd, List.mem_cons_of_mem _ he, hg⟩
      · rcases hpe : processEntries env tid bid ex ch vs add entries with err | ⟨vs2, ad2⟩
        · rw [show processChapters env f tid bid api ex vs add (ch :: chs) =
              Except.error err by simp only [processChapters, hf, hpe]] at h
          exact absurd h (by simp)
        · rcases hrec : processChapters env f tid bid api ex vs2 ad2 chs with err | ⟨vs3, ad3, fs0⟩
          · rw [show processChapters env f tid bid api ex vs add (ch :: chs) =
                Except.error err by simp only [processChapters, hf, hpe, hrec]] at h
            exact absurd h (by simp)
          · rw [show processChapters env f tid bid api ex vs add (ch :: chs) =
                Except.ok (vs3, ad3, (api, ch) :: fs0) by
                  simp only [processChapters, hf, hpe, hrec]] at h
            simp only [Except.ok.injEq, Prod.mk.injEq] at h
            obtain ⟨h1, _, h3⟩ := h
            subst h1
            subst h3
            obtain ⟨⟨ext1, hext1⟩, hrows1⟩ := processEntries_ok env tid bid ex ch entries vs add
              vs2 ad2 hpe
            obtain ⟨⟨ext2, hext2⟩, hfs, hrows2⟩ := ih vs2 ad2 vs3 ad3 fs0 hrec
            refine ⟨⟨ext1 ++ ext2, by rw [hext2, hext1, List.append_assoc]⟩,
              by rw [hfs, List.map_cons], ?_⟩
            intro r hr
            rcases hrows2 r hr with hin2 | ⟨ha, hb, hc, hd, he, hg⟩
            · rcases hrows1 r hin2 with hin1 | ⟨ha, hb, hch, hc, hd⟩
              · exact Or.inl hin1
              · refine Or.inr ⟨ha, hb, hc, hd, ?_, ?_⟩
                · rw [hch]; exact List.mem_cons_self _ _
                · rw [hch, hf]; simp
            · exact Or.inr ⟨ha, hb, hc, hd, List.mem_cons_of_mem _ he, hg⟩

theorem processChapters_benign_ok (f : Nat → Option (List Entry)) (tid : String) (bid : Nat)
    (api : String) (ex : Finset (Nat × Nat)) :
    ∀ (chs : List Nat) (vs : List Row) (add : Nat),
      (∀ p ∈ ex, p ∈ get_existing_verses vs tid bid) →
      ∃ vs' ad', processChapters benignEnv f tid bid api ex vs add chs =
          .ok (vs', ad', chs.map fun c => (api, c)) ∧
        (∃ ext, vs' = vs ++ ext) ∧
        (∀ p ∈ ex, p ∈ get_existing_verses vs' tid bid) ∧
        ∀ c ∈ chs, ∀ entries, f c = some entries → ∀ e ∈ entries, validEntry e →
          (c, entryVerseNum e) ∈ get_existing_verses vs' tid bid := by
  intro chs
  induction chs with
  | nil =>
      intro vs add hex
      exact ⟨vs, add, rfl, ⟨[], by simp⟩, hex, by simp⟩
  | cons ch chs ih =>
      intro vs add hex
      rcases hf : f ch with _ | entries
      · obtain ⟨vs', ad', hrun, hext, hex', hcov⟩ := ih vs add hex
        refine ⟨vs', ad', ?_, hext, hex', ?_⟩
        · simp only [processChapters, hf, hrun, List.map_cons]
        · intro c hc entries0 hfc e he hv
          rcases List.mem_cons.mp hc with rfl | hc2
          · rw [hf] at hfc; exact absurd hfc (by simp)
          · exact hcov c hc2 entries0 hfc e he hv
      · obtain ⟨vs1, ad1, hpe, ⟨ext1, hext1⟩, hex1, hcov1⟩ :=
          processEntries_benign_ok tid bid ex ch entries vs add hex
        obtain ⟨vs', ad', hrun, ⟨ext2, hext2⟩, hex', hcov⟩ := ih vs1 ad1 hex1
        refine ⟨vs', ad', ?_, ⟨ext1 ++ ext2, by rw [hext2, hext1, List.append_assoc]⟩,
          hex', ?_⟩
        · simp only [processChapters, hf, hpe, hrun, List.map_cons]
        · intro c hc entries0 hfc e he hv
          rcases List.mem_cons.mp hc with rfl | hc2
          · rw [hf] at hfc
            injection hfc with hfc
            subst hfc
            rw [hext2]
            exact mem_gev_append _ _ _ _ _ (hcov1 e he hv)
          · exact hcov c hc2 entries0 hfc e he hv

theorem processChapters_benign_skip (f : Nat → Option (List Entry)) (tid : String) (bid : Nat)
    (api : String) (ex : Finset (Nat × Nat)) :
    ∀ (chs : List Nat) (vs : List Row) (add : Nat),
      (∀ c ∈ chs, ∀ entries, f c = some entries → ∀ e ∈ entries, validEntry e →
        (c, entryVerseNum e) ∈ ex) →
      processChapters benignEnv f tid bid api ex vs add chs =
        .ok (vs, add, chs.map fun c => (api, c)) := by
  intro chs
  induction chs with
  | nil => intro vs add _; rfl
  | cons ch chs ih =>
      intro vs add hcov
      have hrest := ih vs add fun c hc => hcov c (List.mem_cons_of_mem _ hc)
      rcases hf : f ch with _ | entries
      · simp only [processChapters, hf, hrest, List.map_cons]
      · have hpe := processEntries_benign_skip tid bid ex ch entries vs add
          (fun e he hv => hcov ch (List.mem_cons_self _ _) entries hf e he hv)
        simp only [processChapters, hf, hpe, hrest, List.map_cons]

theorem commit_benignEnv (b : Nat) :
    commitWithRetry (benignEnv.commitOut b) = ⟨.committed, [], 1⟩ := rfl

theorem processBook_ok (env : Env) (fetch : Fetch) (code tid : String) (vs : List Row)
    (bk : Nat × String) (br : BookRes) (h : processBook env fetch code tid vs bk = .ok br) :
    (∃ ext, br.verses = vs ++ ext) ∧
    (∀ r ∈ br.verses, r ∈ vs ∨ (r.verse ≠ 0 ∧ r.text ≠ "")) ∧
    br.trace.unitFetches = [] ∧
    br.missingInc = (br.trace.bookStats.map
      fun s => max 0 ((s.expected : Int) - s.existing - s.added)).sum ∧
    0 ≤ br.missingInc := by
  unfold processBook at h
  rcases hl : List.lookup bk.2 BOOK_NAMES with _ | api <;> rw [hl] at h
  · simp only [Except.ok.injEq] at h
    subst h
    exact ⟨⟨[], by simp⟩, fun r hr => Or.inl hr, rfl, by simp [Trace.emptyT], le_refl 0⟩
  · simp only at h
    split at h
    · simp only [Except.ok.injEq] at h
      subst h
      exact ⟨⟨[], by simp⟩, fun r hr => Or.inl hr, rfl, by simp [Trace.emptyT], le_refl 0⟩
    · rcases hc : processChapters env (fetch code api) tid bk.1 api
          (get_existing_verses vs tid bk.1) vs 0
          (List.range' 1 ((List.lookup bk.2 CHAPTERS).getD 0)) with err | ⟨vs2, ad2, fs⟩ <;>
        rw [hc] at h
      · exact absurd h (by simp)
      · simp only at h
        split at h
        · exact absurd h (by simp)
        · exact absurd h (by simp)
        · simp only [Except.ok.injEq] at h
          subst h
          obtain ⟨⟨ext, hext⟩, _, hrows⟩ := processChapters_ok env (fetch code api) tid bk.1 api
            (get_existing_verses vs tid bk.1) (List.range' 1 ((List.lookup bk.2 CHAPTERS).getD 0))
            vs 0 vs2 ad2 fs hc
          refine ⟨⟨ext, hext⟩, ?_, rfl, ?_, ?_⟩
          · intro r hr
            rcases hrows r hr with hin | ⟨_, _, hv, ht, _, _⟩
            · exact Or.inl hin
            · exact Or.inr ⟨hv, ht⟩
          · simp
          · exact le_max_left 0 _

theorem processBook_benign_ok (fetch : Fetch) (code tid : String) (vs : List Row)
    (bk : Nat × String) :
    ∃ br, processBook benignEnv fetch code tid vs bk = .ok br ∧
      (∃ ext, br.verses = vs ++ ext) ∧ bookDone fetch code tid br.verses bk := by
  rcases hl : List.lookup bk.2 BOOK_NAMES with _ | api
  · refine ⟨⟨vs, 0, 0, Trace.emptyT⟩, ?_, ⟨[], by simp⟩, ?_⟩
    · simp only [processBook, hl]
    · unfold bookDone
      rw [hl]
      trivial
  · by_cases hth : 19 * ((List.lookup bk.2 VERSE_COUNTS).getD 0) ≤
        20 * (get_existing_verses vs tid bk.1).card
    · refine ⟨⟨vs, 0, 0, Trace.emptyT⟩, ?_, ⟨[], by simp⟩, ?_⟩
      · simp only [processBook, hl, if_pos hth]
      · unfold bookDone
        rw [hl]
        exact Or.inl hth
    · obtain ⟨vs', ad', hrun, hext, _, hcov⟩ :=
        processChapters_benign_ok (fetch code api) tid bk.1 api
          (get_existing_verses vs tid bk.1) (List.range' 1 ((List.lookup bk.2 CHAPTERS).getD 0))
          vs 0 (fun _ hp => hp)
      refine ⟨⟨vs', ad', max 0 ((((List.lookup bk.2 VERSE_COUNTS).getD 0 : Nat) : Int) -
          (get_existing_verses vs tid bk.1).card - ad'),
          ⟨(List.range' 1 ((List.lookup bk.2 CHAPTERS).getD 0)).map fun c => (api, c), [],
           [bk.1], [⟨bk.1, (List.lookup bk.2 VERSE_COUNTS).getD 0,
             (get_existing_verses vs tid bk.1).card, ad'⟩]⟩⟩, ?_, hext, ?_⟩
      · simp only [processBook, hl, if_neg hth, hrun, commit_benignEnv]
      · unfold bookDone
        rw [hl]
        exact Or.inr hcov

theorem processBook_benign_done (fetch : Fetch) (code tid : String) (vs : List Row)
    (bk : Nat × String) (hd : bookDone fetch code tid vs bk) :
    ∃ mi tr, processBook benignEnv fetch code tid vs bk = .ok ⟨vs, 0, mi, tr⟩ := by
  rcases hl : List.lookup bk.2 BOOK_NAMES with _ | api
  · exact ⟨0, Trace.emptyT, by simp only [processBook, hl]⟩
  · by_cases hth : 19 * ((List.lookup bk.2 VERSE_COUNTS).getD 0) ≤
        20 * (get_existing_verses vs tid bk.1).card
    · exact ⟨0, Trace.emptyT, by simp only [processBook, hl, if_pos hth]⟩
    · unfold bookDone at hd
      rw [hl] at hd
      have hd2 : 19 * ((List.lookup bk.2 VERSE_COUNTS).getD 0) ≤
          20 * (get_existing_verses vs tid bk.1).card ∨
          ∀ c ∈ List.range' 1 ((List.lookup bk.2 CHAPTERS).getD 0), ∀ entries,
            fetch code api c = some entries → ∀ e ∈ entries, validEntry e →
            (c, entryVerseNum e) ∈ get_existing_verses vs tid bk.1 := hd
      rcases hd2 with hth2 | hcov
      · exact absurd hth2 hth
      · have hrun := processChapters_benign_skip (fetch code api) tid bk.1 api
          (get_existing_verses vs tid bk.1) (List.range' 1 ((List.lookup bk.2 CHAPTERS).getD 0))
          vs 0 hcov
        refine ⟨max 0 ((((List.lookup bk.2 VERSE_COUNTS).getD 0 : Nat) : Int) -
            (get_existing_verses vs tid bk.1).card - (0 : Nat)),
          ⟨(List.range' 1 ((List.lookup bk.2 CHAPTERS).getD 0)).map fun c => (api, c), [],
           [bk.1], [⟨bk.1, (List.lookup bk.2 VERSE_COUNTS).getD 0,
             (get_existing_verses vs tid bk.1).card, 0⟩]⟩, ?_⟩
        simp only [processBook, hl, if_neg hth, hrun, commit_benignEnv]

theorem bookDone_none (fetch : Fetch) (code tid : String) (vs : List Row)
    (bk : Nat × String) (hl : List.lookup bk.2 BOOK_NAMES = none) :
    bookDone fetch code tid vs bk := by
  unfold bookDone
  rw [hl]
  trivial

theorem bookDone_some_iff (fetch : Fetch) (code tid : String) (vs : List Row)
    (bk : Nat × String) (api : String) (hl : List.lookup bk.2 BOOK_NAMES = some api) :
    bookDone fetch code tid vs bk ↔
      (19 * ((List.lookup bk.2 VERSE_COUNTS).getD 0) ≤
        20 * (get_existing_verses vs tid bk.1).card ∨
      ∀ c ∈ List.range' 1 ((List.lookup bk.2 CHAPTERS).getD 0), ∀ entries,
        fetch code api c = some entries → ∀ e ∈ entries, validEntry e →
          (c, entryVerseNum e) ∈ get_existing_verses vs tid bk.1) := by
  unfold bookDone
  rw [hl]

theorem bookDone_mono (fetch : Fetch) (code tid : String) (vs ext : List Row)
    (bk : Nat × String) (hd : bookDone fetch code tid vs bk) :
    bookDone fetch code tid (vs ++ ext) bk := by
  rcases hl : List.lookup bk.2 BOOK_NAMES with _ | api
  · exact bookDone_none fetch code tid (vs ++ ext) bk hl
  · rw [bookDone_some_iff fetch code tid vs bk api hl] at hd
    rw [bookDone_some_iff fetch code tid (vs ++ ext) bk api hl]
    rcases hd with hth | hcov
    · exact Or.inl (hth.trans (Nat.mul_le_mul_left 20 (gev_card_mono vs ext tid bk.1)))
    · exact Or.inr fun c hc entries hf e he hv =>
        mem_gev_append _ _ _ _ _ (hcov c hc entries hf e he hv)

theorem repairBooks_ok (env : Env) (fetch : Fetch) (code tid : String) :
    ∀ (bks : List (Nat × String)) (vs : List Row) (out : RunResult),
      repairBooks env fetch code tid vs bks = .ok out →
      (∃ ext, out.verses = vs ++ ext) ∧
      (∀ r ∈ out.verses, r ∈ vs ∨ (r.verse ≠ 0 ∧ r.text ≠ "")) ∧
      out.trace.unitFetches = [] ∧
      out.total_missing = (out.trace.bookStats.map
        fun s => max 0 ((s.expected : Int) - s.existing - s.added)).sum ∧
      0 ≤ out.total_missing := by
  intro bks
  induction bks with
  | nil =>
      intro vs out h
      simp only [repairBooks, Except.ok.injEq] at h
      subst h
      exact ⟨⟨[], by simp⟩, fun r hr => Or.inl hr, rfl, by simp [Trace.emptyT], le_refl 0⟩
  | cons bk bks ih =>
      intro vs out h
      rcases hb : processBook env fetch code tid vs bk with err | br
      · rw [show repairBooks env fetch code tid vs (bk :: bks) = .error err by
          simp only [repairBooks, hb]] at h
        exact absurd h (by simp)
      · rcases hrec : repairBooks env fetch code tid br.verses bks with err | out0
        · rw [show repairBooks env fetch code tid vs (bk :: bks) = .error err by
            simp only [repairBooks, hb, hrec]] at h
          exact absurd h (by simp)
        · rw [show repairBooks env fetch code tid vs (bk :: bks) = .ok
              ⟨out0.verses, br.added + out0.total_added, br.missingInc + out0.total_missing,
               br.trace.cat out0.trace⟩ by simp only [repairBooks, hb, hrec]] at h
          simp only [Except.ok.injEq] at h
          subst h
          obtain ⟨⟨ext1, hext1⟩, hrows1, hu1, hm1, hn1⟩ :=
            processBook_ok env fetch code tid vs bk br hb
          obtain ⟨⟨ext2, hext2⟩, hrows2, hu2, hm2, hn2⟩ := ih br.verses out0 hrec
          refine ⟨⟨ext1 ++ ext2, by rw [hext2, hext1, List.append_assoc]⟩, ?_, ?_, ?_, ?_⟩
          · intro r hr
            rcases hrows2 r hr with hin | hv
            · rcases hrows1 r hin with hin1 | hv1
              · exact Or.inl hin1
              · exact Or.inr hv1
            · exact Or.inr hv
          · simp only [Trace.cat, hu1, hu2, List.append_nil]
          · simp only [Trace.cat, List.map_append, List.sum_append, hm1, hm2]
          · exact add_nonneg hn1 hn2

theorem repairBooks_benign_ok (fetch : Fetch) (code tid : String) :
    ∀ (bks : List (Nat × String)) (vs : List Row),
      ∃ out, repairBooks benignEnv fetch code tid vs bks = .ok out ∧
        (∃ ext, out.verses = vs ++ ext) ∧
        ∀ bk ∈ bks, bookDone fetch code tid out.verses bk := by
  intro bks
  induction bks with
  | nil =>
      intro vs
      exact ⟨⟨vs, 0, 0, Trace.emptyT⟩, rfl, ⟨[], by simp⟩, by simp⟩
  | cons bk bks ih =>
      intro vs
      obtain ⟨br, hb, ⟨ext1, hext1⟩, hdone⟩ := processBook_benign_ok fetch code tid vs bk
      obtain ⟨out0, hrec, ⟨ext2, hext2⟩, hall⟩ := ih br.verses
      refine ⟨⟨out0.verses, br.added + out0.total_added, br.missingInc + out0.total_missing,
        br.trace.cat out0.trace⟩, ?_, ?_, ?_⟩
      · simp only [repairBooks, hb, hrec]
      · exact ⟨ext1 ++ ext2, by rw [hext2, hext1, List.append_assoc]⟩
      · intro bk' hbk'
        rcases List.mem_cons.mp hbk' with rfl | hmem
        · have := bookDone_mono fetch code tid br.verses ext2 bk' hdone
          rw [← hext2] at this
          exact this
        · exact hall bk' hmem

theorem repairBooks_benign_done (fetch : Fetch) (code tid : String) :
    ∀ (bks : List (Nat × String)) (vs : List Row),
      (∀ bk ∈ bks, bookDone fetch code tid vs bk) →
      ∃ out, repairBooks benignEnv fetch code tid vs bks = .ok out ∧
        out.verses = vs ∧ out.total_added = 0 := by
  intro bks
  induction bks with
  | nil =>
      intro vs _
      exact ⟨⟨vs, 0, 0, Trace.emptyT⟩, rfl, rfl, rfl⟩
  | cons bk bks ih =>
      intro vs hall
      obtain ⟨mi, tr, hb⟩ := processBook_benign_done fetch code tid vs bk
        (hall bk (List.mem_cons_self _ _))
      obtain ⟨out0, hrec, hv0, ha0⟩ := ih vs fun bk' hbk' =>
        hall bk' (List.mem_cons_of_mem _ hbk')
      refine ⟨⟨out0.verses, 0 + out0.total_added, mi + out0.total_missing,
        (⟨vs, 0, mi, tr⟩ : BookRes).trace.cat out0.trace⟩, ?_, ?_, ?_⟩
      · simp only [repairBooks, hb]
        rw [hrec]
      · exact hv0
      · simp only [ha0]

theorem repair_translation_none (env : Env) (fetch : Fetch) (db : DB) (tid : String)
    (hl : List.lookup tid TRANSLATIONS = none) :
    repair_translation env fetch db tid = .ok ⟨db.verses, 0, 0, Trace.emptyT⟩ := by
  unfold repair_translation
  rw [hl]

theorem repair_translation_some (env : Env) (fetch : Fetch) (db : DB) (tid code : String)
    (hl : List.lookup tid TRANSLATIONS = some code) :
    repair_translation env fetch db tid = repairBooks env fetch code tid db.verses db.books := by
  unfold repair_translation
  rw [hl]

/-- C1: with a store that reports no contention, running the repair pass
twice in sequence with the same fetch responses yields the same final set of
verse keys as running it once: the second run re-scans, skips every key
already present, adds zero units and raises no error — in fact it leaves the
verse list unchanged row for row. -/
theorem repair_twice_idempotent (fetch : Fetch) (db : DB) (tid : String) (out1 : RunResult)
    (h1 : repair_translation benignEnv fetch db tid = .ok out1) :
    ∃ out2, repair_translation benignEnv fetch ⟨db.books, out1.verses⟩ tid = .ok out2 ∧
      out2.verses = out1.verses ∧ verseKeys out2.verses = verseKeys out1.verses ∧
      out2.total_added = 0 := by
  rcases hl : List.lookup tid TRANSLATIONS with _ | code
  · rw [repair_translation_none benignEnv fetch db tid hl] at h1
    injection h1 with h1
    subst h1
    exact ⟨⟨db.verses, 0, 0, Trace.emptyT⟩,
      repair_translation_none benignEnv fetch _ tid hl, rfl, rfl, rfl⟩
  · rw [repair_translation_some benignEnv fetch db tid code hl] at h1
    obtain ⟨out, hrun, _, hall⟩ := repairBooks_benign_ok fetch code tid db.books db.verses
    rw [h1] at hrun
    injection hrun with hrun
    subst hrun
    obtain ⟨out2, hrun2, hv2, ha2⟩ := repairBooks_benign_done fetch code tid db.books
      out1.verses hall
    refine ⟨out2, ?_, hv2, by rw [hv2], ha2⟩
    rw [repair_translation_some benignEnv fetch ⟨db.books, out1.verses⟩ tid code hl]
    exact hrun2

/-- Checks the idempotence theorem at a concrete input: on an empty store
with a fetch oracle that always fails, the first pass returns the empty
result and the second pass is again error-free with zero additions. -/
theorem repair_twice_idempotent_check :
    ∃ out2, repair_translation benignEnv (fun _ _ _ => none) ⟨[], []⟩ "KJV" = .ok out2 ∧
      out2.verses = (⟨[], 0, 0, Trace.emptyT⟩ : RunResult).verses ∧
      verseKeys out2.verses = verseKeys (⟨[], 0, 0, Trace.emptyT⟩ : RunResult).verses ∧
      out2.total_added = 0 :=
  repair_twice_idempotent (fun _ _ _ => none) ⟨[], []⟩ "KJV" ⟨[], 0, 0, Trace.emptyT⟩ rfl

/-- C3: every run of the repair pass that does not end in a fatal error only
appends rows: the verse rows after the run are the rows before the run plus
a suffix of newly inserted rows, so the stored unit set is a superset of the
set before the run; nothing is updated or deleted. -/
theorem repair_run_additive (env : Env) (fetch : Fetch) (db : DB) (tid : String)
    (out : RunResult) (h : repair_translation env fetch db tid = .ok out) :
    (∃ ext, out.verses = db.verses ++ ext) ∧ ∀ r ∈ db.verses, r ∈ out.verses := by
  rcases hl : List.lookup tid TRANSLATIONS with _ | code
  · rw [repair_translation_none env fetch db tid hl] at h
    injection h with h
    subst h
    exact ⟨⟨[], by simp⟩, fun r hr => hr⟩
  · rw [repair_translation_some env fetch db tid code hl] at h
    obtain ⟨⟨ext, hext⟩, _, _, _, _⟩ := repairBooks_ok env fetch code tid db.books db.verses out h
    exact ⟨⟨ext, hext⟩, fun r hr => by rw [hext]; exact List.mem_append_left _ hr⟩

/-- Checks additivity at a concrete input: a store holding one verse row for
a book list with an unmapped name keeps that row after the run. -/
theorem repair_run_additive_check :
    (∃ ext, (⟨[⟨"KJV", 1, 1, 1, "t"⟩], 0, 0, Trace.emptyT⟩ : RunResult).verses =
      [⟨"KJV", 1, 1, 1, "t"⟩] ++ ext) ∧
    ∀ r ∈ [(⟨"KJV", 1, 1, 1, "t"⟩ : Row)],
      r ∈ (⟨[⟨"KJV", 1, 1, 1, "t"⟩], 0, 0, Trace.emptyT⟩ : RunResult).verses :=
  repair_run_additive benignEnv (fun _ _ _ => none)
    ⟨[(99, "Atlantis")], [⟨"KJV", 1, 1, 1, "t"⟩]⟩ "KJV" ⟨[⟨"KJV", 1, 1, 1, "t"⟩], 0, 0,
      Trace.emptyT⟩ rfl

/-- C4: a document whose existing key count is at or above 95 percent of its
expected count is skipped with no fetch call, no row change and no commit;
a document strictly below the threshold enters the repair path and one bulk
fetch is issued per subdivision 1..num_chapters. -/
theorem completeness_threshold_behavior (fetch : Fetch) (code tid : String) (vs : List Row)
    (bid : Nat) (name api : String) (h : List.lookup name BOOK_NAMES = some api) :
    (19 * ((List.lookup name VERSE_COUNTS).getD 0) ≤
        20 * (get_existing_verses vs tid bid).card →
      processBook benignEnv fetch code tid vs (bid, name) = .ok ⟨vs, 0, 0, Trace.emptyT⟩) ∧
    (¬ 19 * ((List.lookup name VERSE_COUNTS).getD 0) ≤
        20 * (get_existing_verses vs tid bid).card →
      ∃ br, processBook benignEnv fetch code tid vs (bid, name) = .ok br ∧
        br.trace.fetches = (List.range' 1 ((List.lookup name CHAPTERS).getD 0)).map
          fun c => (api, c)) := by
  constructor
  · intro hth
    simp only [processBook, h, if_pos hth]
  · intro hth
    obtain ⟨vs', ad', hrun, _, _, _⟩ :=
      processChapters_benign_ok (fetch code api) tid bid api
        (get_existing_verses vs tid bid) (List.range' 1 ((List.lookup name CHAPTERS).getD 0))
        vs 0 (fun _ hp => hp)
    refine ⟨⟨vs', ad', max 0 ((((List.lookup name VERSE_COUNTS).getD 0 : Nat) : Int) -
        (get_existing_verses vs tid bid).card - ad'),
        ⟨(List.range' 1 ((List.lookup name CHAPTERS).getD 0)).map fun c => (api, c), [],
         [bid], [⟨bid, (List.lookup name VERSE_COUNTS).getD 0,
           (get_existing_verses vs tid bid).card, ad'⟩]⟩⟩, ?_, rfl⟩
    simp only [processBook, h, if_neg hth, hrun, commit_benignEnv]

/-- Checks the threshold behavior at concrete inputs: a store with all 14
expected keys of the single-chapter book 3 John is at threshold and skipped
with no fetch; an empty store is below threshold and one bulk fetch is
issued for the single subdivision. -/
theorem completeness_threshold_behavior_check :
    processBook benignEnv (fun _ _ _ => none) "en-kjv" "KJV"
      ((List.range 14).map fun i => ⟨"KJV", 64, 1, i + 1, "t"⟩) (64, "3 John") =
      .ok ⟨(List.range 14).map fun i => ⟨"KJV", 64, 1, i + 1, "t"⟩, 0, 0, Trace.emptyT⟩ ∧
    ∃ br, processBook benignEnv (fun _ _ _ => none) "en-kjv" "KJV" [] (64, "3 John") =
      .ok br ∧ br.trace.fetches =
        (List.range' 1 ((List.lookup "3 John" CHAPTERS).getD 0)).map fun c => ("3-john", c) :=
  ⟨(completeness_threshold_behavior (fun _ _ _ => none) "en-kjv" "KJV"
      ((List.range 14).map fun i => ⟨"KJV", 64, 1, i + 1, "t"⟩) 64 "3 John" "3-john" rfl).1
      (by decide),
   (completeness_threshold_behavior (fun _ _ _ => none) "en-kjv" "KJV" [] 64 "3 John" "3-john"
      rfl).2 (by decide)⟩

/-- C5 as stated is false at a concrete input: the books table row
(99, "Atlantis") has no expected-count entry in the canonical reference, yet
the run issues no fetch for it, adds nothing and reports it neither repaired
nor failed — the document is silently skipped, not treated as incomplete. -/
theorem unknown_document_skipped_not_repaired :
    List.lookup "Atlantis" VERSE_COUNTS = none ∧
    repair_translation benignEnv (fun _ _ _ => none) ⟨[(99, "Atlantis")], []⟩ "KJV" =
      .ok ⟨[], 0, 0, ⟨[], [], [], []⟩⟩ :=
  ⟨rfl, rfl⟩

/-- C5 amended: a document with no expected-count entry in the canonical
reference is never repaired: if its name also has no API mapping it is
skipped with a warning, and if it had a mapping its expected count would
default to 0, making the completeness check trivially true, so it is skipped
as complete; either way no fetch is issued and nothing is added. -/
theorem unknown_document_never_repaired (env : Env) (fetch : Fetch) (code tid : String)
    (vs : List Row) (bid : Nat) (name : String)
    (h : List.lookup name VERSE_COUNTS = none) :
    processBook env fetch code tid vs (bid, name) = .ok ⟨vs, 0, 0, Trace.emptyT⟩ := by
  rcases hl : List.lookup name BOOK_NAMES with _ | api
  · simp only [processBook, hl]
  · have hth : 19 * ((List.lookup ((bid, name) : Nat × String).2 VERSE_COUNTS).getD 0) ≤
        20 * (get_existing_verses vs tid bid).card := by
      simp [h]
    simp only [processBook, hl, if_pos hth]

/-- Checks the amended claim at a concrete input: the unmapped book
(99, "Atlantis") is skipped unchanged. -/
theorem unknown_document_never_repaired_check :
    processBook benignEnv (fun _ _ _ => none) "en-kjv" "KJV" [] (99, "Atlantis") =
      .ok ⟨[], 0, 0, Trace.emptyT⟩ :=
  unknown_document_never_repaired benignEnv (fun _ _ _ => none) "en-kjv" "KJV" [] 99
    "Atlantis" rfl

/-- C6: a subdivision whose bulk fetch fails contributes zero additions —
every row after the chapter loop either predates it or came from a chapter
whose fetch returned data — the loop still issues one bulk fetch per
subdivision, the repair pass never issues a per-unit fetch, and with a
benign store a whole run always completes without error. -/
theorem bulk_fetch_failure_isolated :
    (∀ (env : Env) (f : Nat → Option (List Entry)) (tid : String) (bid : Nat) (api : String)
        (ex : Finset (Nat × Nat)) (chs : List Nat) (vs vs' : List Row) (add ad' : Nat)
        (fs : List (String × Nat)),
      processChapters env f tid bid api ex vs add chs = .ok (vs', ad', fs) →
      fs = chs.map (fun c => (api, c)) ∧
      ∀ r ∈ vs', r ∈ vs ∨ f r.chapter ≠ none) ∧
    (∀ (env : Env) (fetch : Fetch) (db : DB) (tid : String) (out : RunResult),
      repair_translation env fetch db tid = .ok out → out.trace.unitFetches = []) ∧
    (∀ (fetch : Fetch) (db : DB) (tid : String),
      ∃ out, repair_translation benignEnv fetch db tid = .ok out) := by
  refine ⟨?_, ?_, ?_⟩
  · intro env f tid bid api ex chs vs vs' add ad' fs h
    obtain ⟨_, hfs, hrows⟩ := processChapters_ok env f tid bid api ex chs vs add vs' ad' fs h
    refine ⟨hfs, ?_⟩
    intro r hr
    rcases hrows r hr with hin | ⟨_, _, _, _, _, hg⟩
    · exact Or.inl hin
    · exact Or.inr hg
  · intro env fetch db tid out h
    rcases hl : List.lookup tid TRANSLATIONS with _ | code
    · rw [repair_translation_none env fetch db tid hl] at h
      injection h with h
      subst h
      rfl
    · rw [repair_translation_some env fetch db tid code hl] at h
      obtain ⟨_, _, hu, _, _⟩ := repairBooks_ok env fetch code tid db.books db.verses out h
      exact hu
  · intro fetch db tid
    rcases hl : List.lookup tid TRANSLATIONS with _ | code
    · exact ⟨⟨db.verses, 0, 0, Trace.emptyT⟩, repair_translation_none benignEnv fetch db tid hl⟩
    · obtain ⟨out, hrun, _, _⟩ := repairBooks_benign_ok fetch code tid db.books db.verses
      exact ⟨out, by rw [repair_translation_some benignEnv fetch db tid code hl]; exact hrun⟩

/-- Checks fetch-failure isolation at a concrete input: two chapters whose
fetches both fail still produce two bulk fetch events and no rows, a
concrete run records no per-unit fetches, and a benign run on a small store
completes. -/
theorem bulk_fetch_failure_isolated_check :
    ([("genesis", 1), ("genesis", 2)] = ([1, 2].map fun c => (("genesis" : String), c)) ∧
      ∀ r ∈ ([] : List Row), r ∈ ([] : List Row) ∨ (fun _ : Nat => (none : Option (List Entry)))
        r.chapter ≠ none) ∧
    (⟨[], 0, 0, ⟨[], [], [], []⟩⟩ : RunResult).trace.unitFetches = [] ∧
    ∃ out, repair_translation benignEnv (fun _ _ _ => none) ⟨[], []⟩ "WEB" = .ok out :=
  ⟨(bulk_fetch_failure_isolated.1 benignEnv (fun _ => none) "KJV" 1 "genesis" ∅ [1, 2]
      [] [] 0 0 [("genesis", 1), ("genesis", 2)] rfl),
   (bulk_fetch_failure_isolated.2.1 benignEnv (fun _ _ _ => none) ⟨[], []⟩ "KJV"
      ⟨[], 0, 0, ⟨[], [], [], []⟩⟩ rfl),
   (bulk_fetch_failure_isolated.2.2 (fun _ _ _ => none) ⟨[], []⟩ "WEB")⟩

/-- C9: for every run that completes, the reported still-missing estimate
equals the sum over processed documents of
max(0, expectedCount - existingCount - addedCount), and is non-negative. -/
theorem still_missing_estimate (env : Env) (fetch : Fetch) (db : DB) (tid : String)
    (out : RunResult) (h : repair_translation env fetch db tid = .ok out) :
    out.total_missing = (out.trace.bookStats.map
      fun s => max 0 ((s.expected : Int) - s.existing - s.added)).sum ∧
    0 ≤ out.total_missing := by
  rcases hl : List.lookup tid TRANSLATIONS with _ | code
  · rw [repair_translation_none env fetch db tid hl] at h
    injection h with h
    subst h
    exact ⟨by simp [Trace.emptyT], le_refl 0⟩
  · rw [repair_translation_some env fetch db tid code hl] at h
    obtain ⟨_, _, _, hm, hn⟩ := repairBooks_ok env fetch code tid db.books db.verses out h
    exact ⟨hm, hn⟩

/-- Checks the estimate at a concrete input: repairing 3 John from an empty
store with failing fetches reports 14 still missing, the sum of its single
book statistic, and the estimate is non-negative. -/
theorem still_missing_estimate_check :
    (⟨[], 0, 14, ⟨[("3-john", 1)], [], [64], [⟨64, 14, 0, 0⟩]⟩⟩ : RunResult).total_missing =
      ((⟨[], 0, 14, ⟨[("3-john", 1)], [], [64], [⟨64, 14, 0, 0⟩]⟩⟩ :
        RunResult).trace.bookStats.map
        fun s => max 0 ((s.expected : Int) - s.existing - s.added)).sum ∧
    0 ≤ (⟨[], 0, 14, ⟨[("3-john", 1)], [], [64], [⟨64, 14, 0, 0⟩]⟩⟩ :
      RunResult).total_missing :=
  still_missing_estimate benignEnv (fun _ _ _ => none) ⟨[(64, "3 John")], []⟩ "KJV"
    ⟨[], 0, 14, ⟨[("3-john", 1)], [], [64], [⟨64, 14, 0, 0⟩]⟩⟩ rfl

/-- C10: every row a completed run leaves in the store either predates the
run or has a nonzero verse number and non-empty text, and a payload entry
whose verse number is missing or zero, or whose text is missing or empty, is
a no-op for the entry loop: it is skipped, never written and never counted. -/
theorem invalid_entries_never_written :
    (∀ (env : Env) (fetch : Fetch) (db : DB) (tid : String) (out : RunResult),
      repair_translation env fetch db tid = .ok out →
      ∀ r ∈ out.verses, r ∈ db.verses ∨ (r.verse ≠ 0 ∧ r.text ≠ "")) ∧
    (∀ (env : Env) (tid : String) (bid : Nat) (ex : Finset (Nat × Nat)) (ch : Nat)
        (vs : List Row) (add : Nat) (e : Entry) (es : List Entry),
      ¬ validEntry e →
      processEntries env tid bid ex ch vs add (e :: es) =
        processEntries env tid bid ex ch vs add es) := by
  constructor
  · intro env fetch db tid out h
    rcases hl : List.lookup tid TRANSLATIONS with _ | code
    · rw [repair_translation_none env fetch db tid hl] at h
      injection h with h
      subst h
      exact fun r hr => Or.inl hr
    · rw [repair_translation_some env fetch db tid code hl] at h
      obtain ⟨_, hrows, _, _, _⟩ := repairBooks_ok env fetch code tid db.books db.verses out h
      exact hrows
  · intro env tid bid ex ch vs add e es hv
    simp only [processEntries, if_pos ((validEntry_guard e).mpr hv)]

/-- Checks the validity invariant at concrete inputs: a run on a store with
one pre-existing row keeps only that row, and an entry with verse number 0
is skipped by the entry loop. -/
theorem invalid_entries_never_written_check :
    (∀ r ∈ (⟨[⟨"KJV", 1, 1, 0, ""⟩], 0, 0, ⟨[], [], [], []⟩⟩ : RunResult).verses,
      r ∈ [(⟨"KJV", 1, 1, 0, ""⟩ : Row)] ∨ (r.verse ≠ 0 ∧ r.text ≠ "")) ∧
    processEntries benignEnv "KJV" 1 ∅ 1 [] 0 [⟨none, none, some "x"⟩] =
      processEntries benignEnv "KJV" 1 ∅ 1 [] 0 [] :=
  ⟨invalid_entries_never_written.1 benignEnv (fun _ _ _ => none)
      ⟨[], [⟨"KJV", 1, 1, 0, ""⟩]⟩ "KJV" ⟨[⟨"KJV", 1, 1, 0, ""⟩], 0, 0, ⟨[], [], [], []⟩⟩ rfl,
   invalid_entries_never_written.2 benignEnv "KJV" 1 ∅ 1 [] 0 ⟨none, none, some "x"⟩ []
      (by simp [validEntry, entryVerseNum])⟩

end DivineLink
